import Mathlib

/-!
Shallow embedding of the 3D-Flipbook core (packages/core):
the pagination model (`createSpreads`), the CSS engine state machine
(`CSSEngine`), the WebGL engine state machine (`WebGLEngine`), the
per-item loading runs of both engines, and the `Flipbook` facade
(`core.ts`).  Machine numbers are modelled as `Int` (JS numbers used as
integers); list indexing `images[i]` is modelled by `List.getD` guarded
by the same bounds checks the source performs.
-/

namespace Flipbook

/-- Spread record from `CSSEngine.ts`:
`{ left: string | null; right: string | null; isCover?; isBack? }`. -/
structure Spread where
  left : Option String
  right : Option String
  isCover : Bool
  isBack : Bool
  deriving DecidableEq, Repr

/-- PageInfo record from `types.ts`:
`{ index, total, spread, totalSpreads }`. -/
structure PageInfo where
  index : Int
  total : Int
  spread : Int
  totalSpreads : Int
  deriving DecidableEq, Repr

/-- JS `s || null` on a string: the empty string is falsy and becomes
`null`; any other string is kept. -/
def jsOrNull (s : String) : Option String :=
  if s = "" then none else some s

/-- One interior spread as pushed by the loop body in
`CSSEngine.createSpreads`:
`{ left: images[i] || null, right: images[i + 1] || null, isCover: false, isBack: false }`. -/
def mkInterior (images : List String) (i : Nat) : Spread :=
  { left := jsOrNull (images.getD i "")
    right := jsOrNull (images.getD (i + 1) "")
    isCover := false
    isBack := false }

/-- The loop `for (let i = 1; i < images.length - 1; i += 2)` of
`CSSEngine.createSpreads`, unrolled structurally on a fuel argument
(the wrapper supplies `fuel = images.length`, which bounds the number of
iterations).  The JS guard `i < images.length - 1` over integers is
exactly `i + 1 < images.length`. -/
def interiorAux (images : List String) : Nat → Nat → List Spread
  | 0, _ => []
  | fuel + 1, i =>
    if i + 1 < images.length then
      mkInterior images i :: interiorAux images fuel (i + 2)
    else []

/-- `CSSEngine.createSpreads(images)`: front cover when `images.length > 0`
(right slot = `images[0]`), interior pairs from the loop starting at
`i = 1`, back cover when `images.length > 1`
(left slot = `images[images.length - 1]`). -/
def createSpreads (images : List String) : List Spread :=
  (if 0 < images.length then
    [{ left := none, right := some (images.getD 0 ""), isCover := true, isBack := false }]
   else [])
  ++ interiorAux images images.length 1
  ++ (if 1 < images.length then
    [{ left := some (images.getD (images.length - 1) ""), right := none,
       isCover := false, isBack := true }]
   else [])

example : createSpreads [] = [] := by decide

example : createSpreads ["a"] =
    [⟨none, some "a", true, false⟩] := by decide

example : createSpreads ["a", "b", "c"] =
    [⟨none, some "a", true, false⟩,
     ⟨some "b", some "c", false, false⟩,
     ⟨some "c", none, false, true⟩] := by decide

example : createSpreads ["a", "b", "c", "d", "e"] =
    [⟨none, some "a", true, false⟩,
     ⟨some "b", some "c", false, false⟩,
     ⟨some "d", some "e", false, false⟩,
     ⟨some "e", none, false, true⟩] := by decide

/-! ## CSS engine state machine

`CSSEngine` keeps `spreads`, `currentSpread`, `isFlipping` and
`flipDirection`, and schedules one `setTimeout` per started flip.  The
in-flight flip (set `flipDirection` plus pending timer) is modelled by
the `pending` field; the timer callback firing is the `timer` event.
Observable callback invocations (`onAnimationStart`, `onPageChange`,
`onAnimationEnd`) are returned as an emission list. -/

/-- Direction argument of `performFlipAnimation`. -/
inductive FlipDir where
  | forward
  | back
  deriving DecidableEq, Repr

/-- Observable callback emissions of the engines. -/
inductive Emit where
  | animationStart
  | pageChange (p : PageInfo)
  | animationEnd
  deriving DecidableEq, Repr

/-- State of a `CSSEngine` instance: `spreads`, `currentSpread`,
`isFlipping`, and the in-flight flip (the captured `direction` of the
scheduled `setTimeout` callback, mirroring `flipDirection`). -/
structure CSSState where
  spreads : List Spread
  currentSpread : Int
  isFlipping : Bool
  pending : Option FlipDir
  deriving DecidableEq, Repr

/-- The `PageInfo` object every CSS-engine site constructs:
`{ index: currentSpread * 2, total: spreads.length * 2, spread: currentSpread, totalSpreads: spreads.length }`. -/
def cssPageInfo (cs : Int) (len : Nat) : PageInfo :=
  { index := cs * 2, total := (len : Int) * 2, spread := cs, totalSpreads := (len : Int) }

/-- `CSSEngine.performFlipAnimation(direction)` up to its `setTimeout`:
sets `isFlipping = true`, records the direction, fires
`onAnimationStart`, and schedules the timer (the timer body is
`cssTimerFire`). -/
def performFlipAnimation (d : FlipDir) (st : CSSState) : CSSState × List Emit :=
  ({ st with isFlipping := true, pending := some d }, [.animationStart])

/-- `CSSEngine.goToNextSpread`: no-op when `isFlipping` or
`currentSpread >= spreads.length - 1`, else a forward flip starts. -/
def goToNextSpread (st : CSSState) : CSSState × List Emit :=
  if st.isFlipping ∨ st.currentSpread ≥ (st.spreads.length : Int) - 1 then (st, [])
  else performFlipAnimation .forward st

/-- `CSSEngine.goToPrevSpread`: no-op when `isFlipping` or
`currentSpread <= 0`, else a backward flip starts. -/
def goToPrevSpread (st : CSSState) : CSSState × List Emit :=
  if st.isFlipping ∨ st.currentSpread ≤ 0 then (st, [])
  else performFlipAnimation .back st

/-- The `setTimeout` callback body of `performFlipAnimation` firing:
commits `currentSpread` one step in the captured direction, clears
`isFlipping`/`flipDirection`, then fires `onPageChange` with the
recomputed `PageInfo` followed by `onAnimationEnd`.  If no timer is
pending the event does nothing. -/
def cssTimerFire (st : CSSState) : CSSState × List Emit :=
  match st.pending with
  | none => (st, [])
  | some d =>
    let cs := match d with
      | .forward => st.currentSpread + 1
      | .back => st.currentSpread - 1
    ({ st with currentSpread := cs, isFlipping := false, pending := none },
     [.pageChange (cssPageInfo cs st.spreads.length), .animationEnd])

/-- `CSSEngine.goToPage(index)`: `spreadIndex = Math.floor(index / 2)`;
no-op when `spreadIndex < 0`, `spreadIndex >= spreads.length` or
`spreadIndex === currentSpread` (no `isFlipping` check in the source);
otherwise commits `currentSpread` immediately and fires `onPageChange`. -/
def cssGoToPage (i : Int) (st : CSSState) : CSSState × List Emit :=
  let si := Int.fdiv i 2
  if si < 0 ∨ si ≥ (st.spreads.length : Int) ∨ si = st.currentSpread then (st, [])
  else
    ({ st with currentSpread := si },
     [.pageChange (cssPageInfo si st.spreads.length)])

/-- `CSSEngine.nextPage`: the async body synchronously runs
`goToNextSpread` and returns; since the body contains no `await`, the
returned promise is resolved at that return.  The commit happens only
when the scheduled timer later fires (`cssTimerFire`). -/
def cssNextPage (st : CSSState) : CSSState × List Emit :=
  goToNextSpread st

/-- `CSSEngine.prevPage`: async body synchronously runs `goToPrevSpread`;
the promise resolves at return of the body. -/
def cssPrevPage (st : CSSState) : CSSState × List Emit :=
  goToPrevSpread st

/-- `CSSEngine.getCurrentPage`. -/
def cssGetCurrentPage (st : CSSState) : PageInfo :=
  cssPageInfo st.currentSpread st.spreads.length

/-- Engine state right after the constructor ran `createSpreads` (inside
`loadImages`, before any navigation): `currentSpread = 0`, no flip in
flight. -/
def cssInit (images : List String) : CSSState :=
  { spreads := createSpreads images
    currentSpread := 0
    isFlipping := false
    pending := none }

/-- Events that can hit a `CSSEngine` instance: the public navigation
calls and the firing of a scheduled flip timer. -/
inductive CSSEvent where
  | next
  | prev
  | goto (i : Int)
  | timer
  deriving DecidableEq, Repr

/-- One step of the CSS engine under an event. -/
def cssStep (e : CSSEvent) (st : CSSState) : CSSState × List Emit :=
  match e with
  | .next => cssNextPage st
  | .prev => cssPrevPage st
  | .goto i => cssGoToPage i st
  | .timer => cssTimerFire st

/-- Run a list of events from a start state, keeping the final state. -/
def cssRun (st : CSSState) (es : List CSSEvent) : CSSState :=
  es.foldl (fun s e => (cssStep e s).1) st

/-! ## WebGL engine state machine

`WebGLEngine` keeps one mesh per media item (`pages`, built 1:1 from the
loaded textures), `currentPage` and `isAnimating`; a started flip drives
a gsap tween whose `onComplete` callback commits the move.  Only the
page count matters for the claims, so `pages` is modelled by its
length. -/

/-- State of a `WebGLEngine` instance. -/
structure WGLState where
  pages : Nat
  currentPage : Int
  isAnimating : Bool
  pending : Option FlipDir
  deriving DecidableEq, Repr

/-- The `PageInfo` object every WebGL-engine site constructs:
`{ index: currentPage, total: pages.length, spread: Math.floor(currentPage / 2), totalSpreads: Math.ceil(pages.length / 2) }`. -/
def wglPageInfo (cp : Int) (n : Nat) : PageInfo :=
  { index := cp
    total := (n : Int)
    spread := Int.fdiv cp 2
    totalSpreads := ((n + 1) / 2 : Nat) }

/-- `WebGLEngine.nextPage`: no-op when `isAnimating` or
`currentPage >= pages.length - 1`; otherwise sets `isAnimating`, fires
`onAnimationStart` and starts the forward tween (committed later by
`wglTweenComplete`).  The async body has no `await`, so its promise is
resolved at return. -/
def wglNextPage (st : WGLState) : WGLState × List Emit :=
  if st.isAnimating ∨ st.currentPage ≥ (st.pages : Int) - 1 then (st, [])
  else ({ st with isAnimating := true, pending := some .forward }, [.animationStart])

/-- `WebGLEngine.prevPage`: no-op when `isAnimating` or
`currentPage <= 0`; otherwise starts the backward tween. -/
def wglPrevPage (st : WGLState) : WGLState × List Emit :=
  if st.isAnimating ∨ st.currentPage ≤ 0 then (st, [])
  else ({ st with isAnimating := true, pending := some .back }, [.animationStart])

/-- The gsap timeline `onComplete` callback: commits `currentPage` one
step, clears `isAnimating`, fires `onPageChange` then `onAnimationEnd`. -/
def wglTweenComplete (st : WGLState) : WGLState × List Emit :=
  match st.pending with
  | none => (st, [])
  | some d =>
    let cp := match d with
      | .forward => st.currentPage + 1
      | .back => st.currentPage - 1
    ({ st with currentPage := cp, isAnimating := false, pending := none },
     [.pageChange (wglPageInfo cp st.pages), .animationEnd])

/-- `WebGLEngine.goToPage(pageIndex)`: no-op when out of range or equal
to `currentPage` (no `isAnimating` check in the source); otherwise
swaps visibility, commits `currentPage` and fires `onPageChange`. -/
def wglGoToPage (i : Int) (st : WGLState) : WGLState × List Emit :=
  if i < 0 ∨ i ≥ (st.pages : Int) ∨ i = st.currentPage then (st, [])
  else ({ st with currentPage := i }, [.pageChange (wglPageInfo i st.pages)])

/-- `WebGLEngine.getCurrentPage`. -/
def wglGetCurrentPage (st : WGLState) : PageInfo :=
  wglPageInfo st.currentPage st.pages

/-! ## Loading runs

Both engines map every media item to an independent asynchronous load
and aggregate them with `Promise.all`.  A load run is modelled by the
per-item outcome (`outcome i = true` iff item `i` decodes successfully)
plus the order in which the item callbacks arrive on the event loop
(`order`, the completion order — any permutation of the indices).
`Promise.all` rejects with the first rejection in completion order; its
`catch` handler (`onError`) runs at that point; handlers of items that
settle afterwards still run, but the aggregate result is only observed
once.  If every item succeeds the aggregate resolves after the last
one. -/

/-- Observable loading callbacks.  `progress loaded total` is an
`onLoadProgress` invocation (only the `loaded`/`total` fields matter to
the claims); `loadError i` is `onError` with the failure of item `i`. -/
inductive LoadEmit where
  | progress (loaded total : Nat)
  | loadError (i : Nat)
  | loadComplete
  | ready
  deriving DecidableEq, Repr

/-- Per-item callbacks of `CSSEngine.loadImage` arriving in completion
order.  A success adds its index to the `loadedImages` set and fires
`onLoadProgress` with `loaded = loadedImages.size`; the first failure
rejects the aggregate, whose `catch` in `loadImages` fires `onError`;
later failures are ignored by the already-settled aggregate. -/
def cssLoadFold (total : Nat) (outcome : Nat → Bool) :
    List Nat → Finset Nat → Option Nat → List LoadEmit
  | [], _, _ => []
  | i :: rest, loadedImages, rejected =>
    if outcome i then
      let s := insert i loadedImages
      .progress s.card total :: cssLoadFold total outcome rest s rejected
    else
      match rejected with
      | none => .loadError i :: cssLoadFold total outcome rest loadedImages (some i)
      | some _ => cssLoadFold total outcome rest loadedImages rejected

/-- `CSSEngine.loadImages` over a completion order of the `n` items:
the per-item callbacks, then — only when `Promise.all` resolved, i.e.
no item failed — `onLoadComplete` and `onReady`. -/
def cssLoadRun (n : Nat) (outcome : Nat → Bool) (order : List Nat) : List LoadEmit :=
  let emits := cssLoadFold n outcome order ∅ none
  if order.all outcome then emits ++ [.loadComplete, .ready] else emits

/-- Per-item callbacks of `WebGLEngine.loadTextures` in completion
order: a success of item `i` fires `onLoadProgress` with
`loaded = i + 1` (the item's list index plus one, not a count of
completed items); the first failure rejects the aggregate and the
constructor's `catch` fires `onError`. -/
def wglLoadFold (total : Nat) (outcome : Nat → Bool) :
    List Nat → Option Nat → List LoadEmit
  | [], _ => []
  | i :: rest, rejected =>
    if outcome i then
      .progress (i + 1) total :: wglLoadFold total outcome rest rejected
    else
      match rejected with
      | none => .loadError i :: wglLoadFold total outcome rest (some i)
      | some _ => wglLoadFold total outcome rest rejected

/-- `WebGLEngine.loadTextures` plus the constructor continuation: when
all items succeed, `loadTextures` fires `onLoadComplete` and the
constructor's `then` fires `onReady`; on any failure the `catch` fires
`onError` and `onReady` is never reached. -/
def wglLoadRun (n : Nat) (outcome : Nat → Bool) (order : List Nat) : List LoadEmit :=
  let emits := wglLoadFold n outcome order none
  if order.all outcome then emits ++ [.loadComplete, .ready] else emits

/-- The `loaded` components of the `onLoadProgress` emissions of a run,
in emission order. -/
def loadedSeq (emits : List LoadEmit) : List Nat :=
  emits.filterMap fun e =>
    match e with
    | .progress loaded _ => some loaded
    | _ => none

/-- A sequence of naturals is non-decreasing from one entry to the
next. -/
def nondecreasing : List Nat → Bool
  | [] => true
  | [_] => true
  | a :: b :: rest => a ≤ b && nondecreasing (b :: rest)

/-! ## Facade (`core.ts`) -/

/-- The single backend held by the `Flipbook` facade. -/
inductive EngineState where
  | css (st : CSSState)
  | webgl (st : WGLState)
  deriving DecidableEq, Repr

/-- `Flipbook.getCurrentPage`: forwards to the engine. -/
def engineGetCurrentPage : EngineState → PageInfo
  | .css st => cssGetCurrentPage st
  | .webgl st => wglGetCurrentPage st

/-- LoadingProgress record from `types.ts` as the facade builds it
(`currentItem` omitted there). -/
structure LoadingProgress where
  loaded : Int
  total : Int
  progress : ℚ
  deriving DecidableEq, Repr

/-- `Flipbook.getLoadingProgress`: reads `getCurrentPage().total` and
returns `{ loaded: total, total, progress: 1 }` for any engine state. -/
def facadeGetLoadingProgress (e : EngineState) : LoadingProgress :=
  let currentPage := engineGetCurrentPage e
  { loaded := currentPage.total
    total := currentPage.total
    progress := 1 }

/-! ## Helper lemmas on the pagination model -/

/-- Iteration count of the interior loop: starting at `i` with enough
fuel it produces `(images.length - i) / 2` spreads. -/
lemma interiorAux_length (images : List String) :
    ∀ fuel i, images.length ≤ i + fuel →
      (interiorAux images fuel i).length = (images.length - i) / 2 := by
  intro fuel
  induction fuel with
  | zero =>
    intro i h
    simp only [interiorAux, List.length_nil]
    omega
  | succ fuel ih =>
    intro i h
    simp only [interiorAux]
    split
    · rename_i hlt
      simp only [List.length_cons, ih (i + 2) (by omega)]
      omega
    · rename_i hge
      simp only [List.length_nil]
      omega

/-- Shape of `createSpreads` for two or more items: front cover,
interior loop output, back cover. -/
lemma createSpreads_two_le {images : List String} (h : 2 ≤ images.length) :
    createSpreads images =
      ⟨none, some (images.getD 0 ""), true, false⟩ ::
        (interiorAux images images.length 1 ++
          [⟨some (images.getD (images.length - 1) ""), none, false, true⟩]) := by
  unfold createSpreads
  rw [if_pos (by omega), if_pos (by omega)]
  simp

/-! ## Claim theorems -/

/-- C1. For every media list: length 0 yields an empty spread sequence;
length 1 yields exactly one spread, the front cover with the single item
in the right slot; length `L ≥ 2` yields exactly
`ceil((L - 2) / 2) + 2` spreads (in ℕ: `(L - 2 + 1) / 2 + 2`), where
spread 0 is the front cover (right slot = item 0, left slot empty) and
the last spread is the back cover (left slot = item `L - 1`, right slot
empty). -/
theorem createSpreads_shape (images : List String) :
    (images.length = 0 → createSpreads images = []) ∧
    (images.length = 1 →
      createSpreads images = [⟨none, some (images.getD 0 ""), true, false⟩]) ∧
    (2 ≤ images.length →
      (createSpreads images).length = (images.length - 2 + 1) / 2 + 2 ∧
      (createSpreads images).head? =
        some ⟨none, some (images.getD 0 ""), true, false⟩ ∧
      (createSpreads images).getLast? =
        some ⟨some (images.getD (images.length - 1) ""), none, false, true⟩) := by
  refine ⟨?_, ?_, ?_⟩
  · intro h
    rw [List.length_eq_zero] at h
    subst h
    decide
  · intro h
    match images, h with
    | [a], _ =>
      simp [createSpreads, interiorAux]
  · intro h
    have hshape := createSpreads_two_le h
    refine ⟨?_, ?_, ?_⟩
    · rw [hshape]
      simp only [List.length_cons, List.length_append, List.length_nil]
      rw [interiorAux_length images images.length 1 (by omega)]
      omega
    · rw [hshape, List.head?_cons]
    · rw [hshape]
      rw [show (⟨none, some (images.getD 0 ""), true, false⟩ : Spread) ::
            (interiorAux images images.length 1 ++
              [⟨some (images.getD (images.length - 1) ""), none, false, true⟩]) =
          (⟨none, some (images.getD 0 ""), true, false⟩ ::
            interiorAux images images.length 1) ++
              [⟨some (images.getD (images.length - 1) ""), none, false, true⟩]
        from by simp]
      rw [List.getLast?_append_of_ne_nil _ (by simp)]
      rfl

/-- Witness for C1 at the concrete five-item list of the spec's
scenario. -/
theorem createSpreads_shape_witness :
    (createSpreads ["a", "b", "c", "d", "e"]).length = (5 - 2 + 1) / 2 + 2 ∧
    (createSpreads ["a", "b", "c", "d", "e"]).head? =
      some ⟨none, some "a", true, false⟩ ∧
    (createSpreads ["a", "b", "c", "d", "e"]).getLast? =
      some ⟨some "e", none, false, true⟩ :=
  (createSpreads_shape ["a", "b", "c", "d", "e"]).2.2 (by decide)

/-- Every spread produced by the interior loop comes from a loop index
`j` with the start parity, within bounds. -/
lemma mem_interiorAux {images : List String} :
    ∀ fuel i sp, sp ∈ interiorAux images fuel i →
      ∃ j, i ≤ j ∧ j % 2 = i % 2 ∧ j + 1 < images.length ∧
        sp = mkInterior images j := by
  intro fuel
  induction fuel with
  | zero =>
    intro i sp hsp
    simp [interiorAux] at hsp
  | succ fuel ih =>
    intro i sp hsp
    simp only [interiorAux] at hsp
    split at hsp
    · rename_i hlt
      rcases List.mem_cons.mp hsp with heq | htail
      · exact ⟨i, le_refl i, rfl, hlt, heq⟩
      · obtain ⟨j, hij, hpar, hjlt, hj⟩ := ih (i + 2) sp htail
        exact ⟨j, by omega, by omega, hjlt, hj⟩
    · simp at hsp

/-- Conversely, every in-bounds loop index of the start parity is
visited by the interior loop (given enough fuel). -/
lemma interiorAux_mem {images : List String} :
    ∀ fuel i j, images.length ≤ i + fuel → i ≤ j → j % 2 = i % 2 →
      j + 1 < images.length →
      mkInterior images j ∈ interiorAux images fuel i := by
  intro fuel
  induction fuel with
  | zero =>
    intro i j hfuel hij hpar hjlt
    omega
  | succ fuel ih =>
    intro i j hfuel hij hpar hjlt
    have hi : i + 1 < images.length := by omega
    simp only [interiorAux, if_pos hi]
    rcases Nat.eq_or_lt_of_le hij with heq | hlt
    · subst heq
      exact List.mem_cons_self _ _
    · have hij2 : i + 2 ≤ j := by omega
      exact List.mem_cons_of_mem _ (ih (i + 2) j (by omega) hij2 (by omega) hjlt)

/-- A kept (non-null) slot value can only collide with a different
string when the two are equal. -/
lemma jsOrNull_ne_some {s t : String} (h : s ≠ t) : jsOrNull s ≠ some t := by
  unfold jsOrNull
  split
  · exact fun hc => Option.noConfusion hc
  · exact fun hc => h (Option.some.inj hc)

/-- C2 counterexample: for the three-item list `["a","b","c"]`
(`L = 3 ≥ 2`), the last item `"c"` also appears in the right slot of
the interior spread at index 1, which is not the back cover — the claim
that item `L - 1` appears only in the terminal back-cover spread is
false. -/
theorem lastItem_in_interior_counterexample :
    2 ≤ (["a", "b", "c"] : List String).length ∧
    ((createSpreads ["a", "b", "c"]).getD 1 ⟨none, none, false, false⟩).right =
      some "c" ∧
    ((createSpreads ["a", "b", "c"]).getD 1 ⟨none, none, false, false⟩).isBack =
      false ∧
    (["a", "b", "c"] : List String).getD (3 - 1) "" = "c" := by
  decide

/-- C2 amended: for media lists of even length `L ≥ 2` with pairwise
distinct items, the last item appears in no interior spread (only in
the terminal back cover); for odd `L ≥ 3` the final interior loop index
`L - 2` pairs items `L - 2` and `L - 1`, so the interior spread it
produces carries the last item in its right slot, duplicating the back
cover; in all cases the back cover is its own terminal spread. -/
theorem lastItem_placement (images : List String) (h2 : 2 ≤ images.length)
    (hnd : images.Nodup) :
    (images.length % 2 = 0 →
      ∀ sp ∈ interiorAux images images.length 1,
        sp.left ≠ some (images.getD (images.length - 1) "") ∧
        sp.right ≠ some (images.getD (images.length - 1) "")) ∧
    (images.length % 2 = 1 →
      mkInterior images (images.length - 2) ∈
        interiorAux images images.length 1 ∧
      (mkInterior images (images.length - 2)).right =
        jsOrNull (images.getD (images.length - 1) "")) ∧
    (createSpreads images).getLast? =
      some ⟨some (images.getD (images.length - 1) ""), none, false, true⟩ := by
  have hgetD_ne : ∀ k, k < images.length → k ≠ images.length - 1 →
      images.getD k "" ≠ images.getD (images.length - 1) "" := by
    intro k hk hkne
    rw [List.getD_eq_getElem images "" hk,
      List.getD_eq_getElem images "" (by omega)]
    intro heq
    exact hkne ((List.Nodup.getElem_inj_iff hnd).mp heq)
  refine ⟨?_, ?_, ?_⟩
  · intro heven sp hsp
    obtain ⟨j, hj1, hjpar, hjlt, hsp⟩ := mem_interiorAux _ _ _ hsp
    subst hsp
    have hjodd : j % 2 = 1 := by omega
    have hjne : j ≠ images.length - 1 := by omega
    have hj1ne : j + 1 ≠ images.length - 1 := by omega
    constructor
    · exact jsOrNull_ne_some (hgetD_ne j (by omega) hjne)
    · exact jsOrNull_ne_some (hgetD_ne (j + 1) (by omega) hj1ne)
  · intro hodd
    refine ⟨?_, ?_⟩
    · exact interiorAux_mem images.length 1 (images.length - 2) (by omega)
        (by omega) (by omega) (by omega)
    · show jsOrNull (images.getD (images.length - 2 + 1) "") = _
      rw [show images.length - 2 + 1 = images.length - 1 from by omega]
  · exact ((createSpreads_shape images).2.2 h2).2.2

/-- Witness for C2 (amended) at the even-length nodup list
`["a","b","c","d"]`: its single interior spread (items "b","c") does not
carry the last item `"d"` in either slot. -/
theorem lastItem_placement_witness :
    (⟨some "b", some "c", false, false⟩ : Spread).left ≠
      some ((["a", "b", "c", "d"] : List String).getD (4 - 1) "") ∧
    (⟨some "b", some "c", false, false⟩ : Spread).right ≠
      some ((["a", "b", "c", "d"] : List String).getD (4 - 1) "") :=
  (lastItem_placement ["a", "b", "c", "d"] (by decide) (by decide)).1 (by decide)
    ⟨some "b", some "c", false, false⟩ (by decide)

/-- C3. At most one flip animation is in flight per engine instance:
`nextPage`/`prevPage` while `Flipping` (CSS) or while animating (WebGL)
changes no state and emits nothing (a silent no-op, not queued); the
same holds when the target index would leave the valid range; and two
`nextPage` calls in immediate succession commit exactly one advance (the
second call is a no-op, and the flip completion advances the position by
exactly one). -/
theorem flip_exclusive (stc : CSSState) (stw : WGLState) :
    (stc.isFlipping = true →
      cssNextPage stc = (stc, []) ∧ cssPrevPage stc = (stc, [])) ∧
    (stc.currentSpread ≥ (stc.spreads.length : Int) - 1 →
      cssNextPage stc = (stc, [])) ∧
    (stc.currentSpread ≤ 0 → cssPrevPage stc = (stc, [])) ∧
    (stc.isFlipping = false → stc.pending = none →
      cssNextPage (cssNextPage stc).1 = ((cssNextPage stc).1, []) ∧
      (cssTimerFire (cssNextPage (cssNextPage stc).1).1).1.currentSpread =
        (if stc.currentSpread < (stc.spreads.length : Int) - 1 then
          stc.currentSpread + 1 else stc.currentSpread)) ∧
    (stw.isAnimating = true →
      wglNextPage stw = (stw, []) ∧ wglPrevPage stw = (stw, [])) ∧
    (stw.currentPage ≥ (stw.pages : Int) - 1 → wglNextPage stw = (stw, [])) ∧
    (stw.isAnimating = false → stw.pending = none →
      wglNextPage (wglNextPage stw).1 = ((wglNextPage stw).1, []) ∧
      (wglTweenComplete (wglNextPage (wglNextPage stw).1).1).1.currentPage =
        (if stw.currentPage < (stw.pages : Int) - 1 then
          stw.currentPage + 1 else stw.currentPage)) := by
  refine ⟨?_, ?_, ?_, ?_, ?_, ?_, ?_⟩
  · intro h
    constructor <;> simp [cssNextPage, cssPrevPage, goToNextSpread, goToPrevSpread, h]
  · intro h
    simp [cssNextPage, goToNextSpread, h]
  · intro h
    simp [cssPrevPage, goToPrevSpread, h]
  · intro hf hp
    by_cases hr : stc.currentSpread < (stc.spreads.length : Int) - 1
    · have h1 : cssNextPage stc =
          ({ stc with isFlipping := true, pending := some .forward },
           [.animationStart]) := by
        simp [cssNextPage, goToNextSpread, performFlipAnimation, hf]
        omega
      rw [h1]
      constructor
      · simp [cssNextPage, goToNextSpread]
      · rw [if_pos hr]
        simp [cssNextPage, goToNextSpread, cssTimerFire]
    · have h1 : cssNextPage stc = (stc, []) := by
        simp [cssNextPage, goToNextSpread]
        omega
      rw [h1]
      constructor
      · exact h1
      · rw [if_neg hr, h1]
        simp [cssTimerFire, hp]
  · intro h
    constructor <;> simp [wglNextPage, wglPrevPage, h]
  · intro h
    simp [wglNextPage, h]
  · intro hf hp
    by_cases hr : stw.currentPage < (stw.pages : Int) - 1
    · have h1 : wglNextPage stw =
          ({ stw with isAnimating := true, pending := some .forward },
           [.animationStart]) := by
        simp [wglNextPage, hf]
        omega
      rw [h1]
      constructor
      · simp [wglNextPage]
      · rw [if_pos hr]
        simp [wglNextPage, wglTweenComplete]
    · have h1 : wglNextPage stw = (stw, []) := by
        simp [wglNextPage]
        omega
      rw [h1]
      constructor
      · exact h1
      · rw [if_neg hr, h1]
        simp [wglTweenComplete, hp]

/-- Witness for C3: from the freshly initialised two-item CSS engine,
the second of two immediate `nextPage` calls is a no-op, and the flip
commit advances the position exactly once (to spread 1). -/
theorem flip_exclusive_witness :
    cssNextPage (cssNextPage (cssInit ["a", "b"])).1 =
      ((cssNextPage (cssInit ["a", "b"])).1, []) ∧
    (cssTimerFire (cssNextPage (cssNextPage (cssInit ["a", "b"])).1).1).1.currentSpread = 1 := by
  have h := (flip_exclusive (cssInit ["a", "b"]) ⟨2, 0, false, none⟩).2.2.2.1
    (by decide) (by decide)
  refine ⟨h.1, ?_⟩
  rw [h.2]
  decide

/-- C4 counterexample: `goToPage` is NOT gated on `Ready`.  Starting a
flip from the four-item CSS engine (state is `Flipping`) and then
calling `goToPage(2)` commits the jump to spread 1 and fires
`onPageChange` even though a flip is in flight; the WebGL engine
behaves the same while animating. -/
theorem goToPage_during_flip_counterexample :
    ((cssStep .next (cssInit ["a", "b", "c", "d"])).1.isFlipping = true ∧
     (cssGoToPage 2 (cssStep .next (cssInit ["a", "b", "c", "d"])).1).1.currentSpread = 1 ∧
     (cssGoToPage 2 (cssStep .next (cssInit ["a", "b", "c", "d"])).1).2 =
       [.pageChange (cssPageInfo 1 3)]) ∧
    ((wglNextPage ⟨4, 0, false, none⟩).1.isAnimating = true ∧
     (wglGoToPage 2 (wglNextPage ⟨4, 0, false, none⟩).1).1.currentPage = 2 ∧
     (wglGoToPage 2 (wglNextPage ⟨4, 0, false, none⟩).1).2 =
       [.pageChange (wglPageInfo 2 4)]) := by
  decide

/-- C4 amended.  `goToPage(i)` converts `i` to a spread index by
integer halving (`floor(i / 2)`; the WebGL engine uses `i` itself as
the page index) and is effective exactly when the target is in range
and differs from the current position — regardless of the
`Flipping`/animating state, which neither engine checks.  When
effective it commits the new position immediately and emits only
`onPageChange` (no animation events); otherwise it is a silent no-op. -/
theorem goToPage_semantics (i : Int) (stc : CSSState) (stw : WGLState) :
    (¬(0 ≤ Int.fdiv i 2 ∧ Int.fdiv i 2 < (stc.spreads.length : Int) ∧
        Int.fdiv i 2 ≠ stc.currentSpread) →
      cssGoToPage i stc = (stc, [])) ∧
    (0 ≤ Int.fdiv i 2 → Int.fdiv i 2 < (stc.spreads.length : Int) →
      Int.fdiv i 2 ≠ stc.currentSpread →
      cssGoToPage i stc =
        ({ stc with currentSpread := Int.fdiv i 2 },
         [.pageChange (cssPageInfo (Int.fdiv i 2) stc.spreads.length)])) ∧
    (¬(0 ≤ i ∧ i < (stw.pages : Int) ∧ i ≠ stw.currentPage) →
      wglGoToPage i stw = (stw, [])) ∧
    (0 ≤ i → i < (stw.pages : Int) → i ≠ stw.currentPage →
      wglGoToPage i stw =
        ({ stw with currentPage := i },
         [.pageChange (wglPageInfo i stw.pages)])) := by
  refine ⟨?_, ?_, ?_, ?_⟩
  · intro h
    simp only [cssGoToPage]
    rw [if_pos]
    omega
  · intro h0 hlt hne
    simp only [cssGoToPage]
    rw [if_neg]
    omega
  · intro h
    simp only [wglGoToPage]
    rw [if_pos]
    omega
  · intro h0 hlt hne
    simp only [wglGoToPage]
    rw [if_neg]
    omega

/-- Witness for C4 (amended): `goToPage(4)` on the fresh five-item CSS
engine jumps directly to spread 2 and emits exactly one `onPageChange`. -/
theorem goToPage_semantics_witness :
    cssGoToPage 4 (cssInit ["a", "b", "c", "d", "e"]) =
      ({ cssInit ["a", "b", "c", "d", "e"] with currentSpread := Int.fdiv 4 2 },
       [.pageChange (cssPageInfo (Int.fdiv 4 2) 4)]) :=
  (goToPage_semantics 4 (cssInit ["a", "b", "c", "d", "e"]) ⟨5, 0, false, none⟩).2.1
    (by decide) (by decide) (by decide)

/-- C5 counterexample: `nextPage` on the fresh two-item CSS engine
starts a flip, but the async body contains no `await`, so its promise is
resolved at the synchronous return — at that point the engine is still
`Flipping`, the position is still the pre-flip spread 0, and only
`onAnimationStart` (neither `onPageChange` nor `onAnimationEnd`) has
fired.  The promise therefore resolves before the transition completes. -/
theorem nextPage_resolves_early_counterexample :
    (cssNextPage (cssInit ["a", "b"])).1.isFlipping = true ∧
    (cssNextPage (cssInit ["a", "b"])).1.currentSpread = 0 ∧
    (cssNextPage (cssInit ["a", "b"])).2 = [.animationStart] := by
  decide

/-- C5 amended.  A `nextPage`/`prevPage` call that starts a flip returns
(and its promise resolves) immediately after scheduling the animation:
at resolution the engine is `Flipping`, the position is still the
pre-call one and only `onAnimationStart` has fired; the position commit
together with `onPageChange` and `onAnimationEnd` happens at the later
timer event, which completes the transition. -/
theorem nextPage_resolution (st : CSSState) :
    (st.isFlipping = false →
      st.currentSpread < (st.spreads.length : Int) - 1 →
      (cssNextPage st).1.isFlipping = true ∧
      (cssNextPage st).1.currentSpread = st.currentSpread ∧
      (cssNextPage st).2 = [.animationStart] ∧
      (cssTimerFire (cssNextPage st).1).1.currentSpread = st.currentSpread + 1 ∧
      (cssTimerFire (cssNextPage st).1).1.isFlipping = false ∧
      (cssTimerFire (cssNextPage st).1).2 =
        [.pageChange (cssPageInfo (st.currentSpread + 1) st.spreads.length),
         .animationEnd]) ∧
    (st.isFlipping = false → 0 < st.currentSpread →
      (cssPrevPage st).1.isFlipping = true ∧
      (cssPrevPage st).1.currentSpread = st.currentSpread ∧
      (cssPrevPage st).2 = [.animationStart] ∧
      (cssTimerFire (cssPrevPage st).1).1.currentSpread = st.currentSpread - 1 ∧
      (cssTimerFire (cssPrevPage st).1).1.isFlipping = false ∧
      (cssTimerFire (cssPrevPage st).1).2 =
        [.pageChange (cssPageInfo (st.currentSpread - 1) st.spreads.length),
         .animationEnd]) := by
  constructor
  · intro hf hr
    have h1 : cssNextPage st =
        ({ st with isFlipping := true, pending := some .forward },
         [.animationStart]) := by
      simp [cssNextPage, goToNextSpread, performFlipAnimation, hf]
      omega
    rw [h1]
    refine ⟨rfl, rfl, rfl, ?_, ?_, ?_⟩ <;> simp [cssTimerFire]
  · intro hf hr
    have h1 : cssPrevPage st =
        ({ st with isFlipping := true, pending := some .back },
         [.animationStart]) := by
      simp [cssPrevPage, goToPrevSpread, performFlipAnimation, hf]
      omega
    rw [h1]
    refine ⟨rfl, rfl, rfl, ?_, ?_, ?_⟩ <;> simp [cssTimerFire]

/-- Witness for C5 (amended) on the fresh two-item CSS engine: the
promise resolves mid-flip and the later timer event commits spread 1. -/
theorem nextPage_resolution_witness :
    (cssNextPage (cssInit ["a", "b"])).1.isFlipping = true ∧
    (cssTimerFire (cssNextPage (cssInit ["a", "b"])).1).1.currentSpread = 0 + 1 := by
  have h := (nextPage_resolution (cssInit ["a", "b"])).1 (by decide) (by decide)
  exact ⟨h.1, h.2.2.2.1⟩

/-! ## Reachability for the CSS engine (claim C8) -/

/-- Side condition under which a run is considered: `goToPage` is not
called while a flip is in flight (the source does not guard against
this, and the C8 counterexample shows what happens when it occurs). -/
def OkEvent (st : CSSState) : CSSEvent → Prop
  | .goto _ => st.isFlipping = false
  | _ => True

/-- All events of the run satisfy `OkEvent` at the state they hit. -/
def OkRun : CSSState → List CSSEvent → Prop
  | _, [] => True
  | st, e :: es => OkEvent st e ∧ OkRun (cssStep e st).1 es

/-- Inductive invariant of a CSS engine instance: the position is in
`[0, spreads.length)`, a timer is pending exactly while `Flipping`, and
a pending commit stays in range. -/
def CSSInv (st : CSSState) : Prop :=
  0 ≤ st.currentSpread ∧ st.currentSpread < (st.spreads.length : Int) ∧
  st.pending.isSome = st.isFlipping ∧
  (st.pending = some .forward → st.currentSpread + 1 < (st.spreads.length : Int)) ∧
  (st.pending = some .back → 1 ≤ st.currentSpread)

/-- Each allowed step preserves the invariant and never replaces the
spread arena. -/
lemma cssInv_step (st : CSSState) (e : CSSEvent) (hok : OkEvent st e)
    (h : CSSInv st) :
    CSSInv (cssStep e st).1 ∧ (cssStep e st).1.spreads = st.spreads := by
  obtain ⟨h0, h1, h2, h3, h4⟩ := h
  cases e with
  | next =>
    simp only [cssStep, cssNextPage, goToNextSpread, performFlipAnimation]
    split
    · exact ⟨⟨h0, h1, h2, h3, h4⟩, rfl⟩
    · rename_i hguard
      rw [not_or] at hguard
      refine ⟨⟨h0, h1, rfl, ?_, ?_⟩, rfl⟩
      · intro _
        show st.currentSpread + 1 < (st.spreads.length : Int)
        omega
      · intro heq
        simp at heq
  | prev =>
    simp only [cssStep, cssPrevPage, goToPrevSpread, performFlipAnimation]
    split
    · exact ⟨⟨h0, h1, h2, h3, h4⟩, rfl⟩
    · rename_i hguard
      rw [not_or] at hguard
      refine ⟨⟨h0, h1, rfl, ?_, ?_⟩, rfl⟩
      · intro heq
        simp at heq
      · intro _
        show (1 : Int) ≤ st.currentSpread
        omega
  | goto i =>
    simp only [cssStep, cssGoToPage]
    split
    · exact ⟨⟨h0, h1, h2, h3, h4⟩, rfl⟩
    · rename_i hguard
      rw [not_or, not_or] at hguard
      have hok' : st.isFlipping = false := hok
      have hpend : st.pending = none := by
        cases hpd : st.pending with
        | none => rfl
        | some d =>
          rw [hpd, hok'] at h2
          simp at h2
      refine ⟨⟨?_, ?_, ?_, ?_, ?_⟩, rfl⟩
      · show (0 : Int) ≤ Int.fdiv i 2
        omega
      · show Int.fdiv i 2 < (st.spreads.length : Int)
        omega
      · show st.pending.isSome = st.isFlipping
        exact h2
      · show st.pending = some FlipDir.forward → _
        rw [hpend]
        intro hc
        simp at hc
      · show st.pending = some FlipDir.back → _
        rw [hpend]
        intro hc
        simp at hc
  | timer =>
    simp only [cssStep, cssTimerFire]
    cases hpd : st.pending with
    | none => exact ⟨⟨h0, h1, h2, h3, h4⟩, rfl⟩
    | some d =>
      cases d with
      | forward =>
        have h5 := h3 hpd
        refine ⟨⟨?_, ?_, rfl, ?_, ?_⟩, rfl⟩
        · show (0 : Int) ≤ st.currentSpread + 1
          omega
        · show st.currentSpread + 1 < (st.spreads.length : Int)
          omega
        · intro hc
          simp at hc
        · intro hc
          simp at hc
      | back =>
        have h5 := h4 hpd
        refine ⟨⟨?_, ?_, rfl, ?_, ?_⟩, rfl⟩
        · show (0 : Int) ≤ st.currentSpread - 1
          omega
        · show st.currentSpread - 1 < (st.spreads.length : Int)
          omega
        · intro hc
          simp at hc
        · intro hc
          simp at hc

/-- The invariant holds along every allowed run. -/
lemma cssInv_run : ∀ (es : List CSSEvent) (st : CSSState),
    CSSInv st → OkRun st es → CSSInv (cssRun st es) := by
  intro es
  induction es with
  | nil => intro st h _; exact h
  | cons e es ih =>
    intro st h hok
    exact ih (cssStep e st).1 (cssInv_step st e hok.1 h).1 hok.2

/-- A nonempty media list yields at least one spread. -/
lemma createSpreads_pos {images : List String} (h : images ≠ []) :
    0 < (createSpreads images).length := by
  have hl : 0 < images.length := List.length_pos.mpr h
  unfold createSpreads
  rw [if_pos hl]
  simp

/-- C8 counterexample: with four media items (three spreads), the run
`nextPage; goToPage(4); timer` drives `currentSpread` to 3: `nextPage`
starts a flip, `goToPage(4)` jumps to spread 2 mid-flip (the source does
not guard this), and the pending timer callback still increments.  The
observed `getCurrentPage()` then has `index = 6 = total`, outside
`[0, total - 1]`, and mid-flip observations changed before the flip
completed. -/
theorem getCurrentPage_out_of_range_counterexample :
    (cssGetCurrentPage
        (cssRun (cssInit ["a", "b", "c", "d"]) [.next, .goto 4, .timer])).index = 6 ∧
    (cssGetCurrentPage
        (cssRun (cssInit ["a", "b", "c", "d"]) [.next, .goto 4, .timer])).total = 6 ∧
    ¬((cssGetCurrentPage
        (cssRun (cssInit ["a", "b", "c", "d"]) [.next, .goto 4, .timer])).index ≤
      (cssGetCurrentPage
        (cssRun (cssInit ["a", "b", "c", "d"]) [.next, .goto 4, .timer])).total - 1) := by
  decide

/-- C8 amended.  Provided the media list is nonempty and `goToPage` is
never invoked while a flip is in flight, `getCurrentPage().index`
always lies within `[0, total - 1]`; moreover any step after which the
engine is (still) `Flipping` leaves the observed page unchanged, so a
mid-flip read returns the position committed before the flip began
until the flip fully completes. -/
theorem getCurrentPage_committed (images : List String) (es : List CSSEvent)
    (hne : images ≠ []) (hok : OkRun (cssInit images) es) :
    (0 ≤ (cssGetCurrentPage (cssRun (cssInit images) es)).index ∧
     (cssGetCurrentPage (cssRun (cssInit images) es)).index ≤
       (cssGetCurrentPage (cssRun (cssInit images) es)).total - 1) ∧
    (∀ (st : CSSState) (e : CSSEvent), OkEvent st e →
      (cssStep e st).1.isFlipping = true →
      cssGetCurrentPage (cssStep e st).1 = cssGetCurrentPage st) := by
  constructor
  · have hinit : CSSInv (cssInit images) := by
      refine ⟨le_refl 0, ?_, rfl, ?_, ?_⟩
      · show (0 : Int) < ((createSpreads images).length : Int)
        exact_mod_cast createSpreads_pos hne
      · intro hc
        simp [cssInit] at hc
      · intro hc
        simp [cssInit] at hc
    have hinv := cssInv_run es (cssInit images) hinit hok
    obtain ⟨h0, h1, _, _, _⟩ := hinv
    constructor
    · show (0 : Int) ≤ (cssRun (cssInit images) es).currentSpread * 2
      omega
    · show (cssRun (cssInit images) es).currentSpread * 2 ≤
        ((cssRun (cssInit images) es).spreads.length : Int) * 2 - 1
      omega
  · intro st e hoke hflip
    cases e with
    | next =>
      simp only [cssStep, cssNextPage, goToNextSpread, performFlipAnimation]
      split
      · rfl
      · rfl
    | prev =>
      simp only [cssStep, cssPrevPage, goToPrevSpread, performFlipAnimation]
      split
      · rfl
      · rfl
    | goto i =>
      have hok' : st.isFlipping = false := hoke
      have hfl : (cssStep (CSSEvent.goto i) st).1.isFlipping = st.isFlipping := by
        simp only [cssStep, cssGoToPage]
        split
        · rfl
        · rfl
      rw [hfl, hok'] at hflip
      exact absurd hflip (by decide)
    | timer =>
      simp only [cssStep, cssTimerFire] at hflip ⊢
      cases hpd : st.pending with
      | none => rfl
      | some d =>
        rw [hpd] at hflip
        cases d with
        | forward => simp at hflip
        | back => simp at hflip

/-- Witness for C8 (amended): after `nextPage; timer; nextPage` on the
five-item engine, the observed index 2 lies within `[0, total - 1]`. -/
theorem getCurrentPage_committed_witness :
    0 ≤ (cssGetCurrentPage
        (cssRun (cssInit ["a", "b", "c", "d", "e"]) [.next, .timer, .next])).index ∧
    (cssGetCurrentPage
        (cssRun (cssInit ["a", "b", "c", "d", "e"]) [.next, .timer, .next])).index ≤
      (cssGetCurrentPage
        (cssRun (cssInit ["a", "b", "c", "d", "e"]) [.next, .timer, .next])).total - 1 :=
  (getCurrentPage_committed ["a", "b", "c", "d", "e"] [.next, .timer, .next]
    (by decide) ⟨trivial, trivial, trivial, trivial⟩).1

/-! ## Helper lemmas on the loading runs -/

/-- The per-item fold of the CSS loader emits only progress and error
events, never `onLoadComplete`/`onReady`. -/
lemma cssLoadFold_mem {n : ℕ} {outcome : ℕ → Bool} :
    ∀ (order : List ℕ) (s : Finset ℕ) (rej : Option ℕ) (e : LoadEmit),
      e ∈ cssLoadFold n outcome order s rej →
      (∃ l t, e = .progress l t) ∨ ∃ k, e = .loadError k := by
  intro order
  induction order with
  | nil =>
    intro s rej e he
    simp [cssLoadFold] at he
  | cons i rest ih =>
    intro s rej e he
    simp only [cssLoadFold] at he
    split at he
    · rcases List.mem_cons.mp he with heq | htail
      · exact Or.inl ⟨_, _, heq⟩
      · exact ih _ _ e htail
    · cases rej with
      | none =>
        rcases List.mem_cons.mp he with heq | htail
        · exact Or.inr ⟨i, heq⟩
        · exact ih _ _ e htail
      | some r => exact ih _ _ e he

/-- If every completing item succeeds, the CSS fold emits no error. -/
lemma cssLoadFold_no_error {n : ℕ} {outcome : ℕ → Bool} :
    ∀ (order : List ℕ), (∀ i ∈ order, outcome i = true) →
      ∀ (s : Finset ℕ) (rej : Option ℕ) (k : ℕ),
        LoadEmit.loadError k ∉ cssLoadFold n outcome order s rej := by
  intro order
  induction order with
  | nil =>
    intro _ s rej k
    simp [cssLoadFold]
  | cons i rest ih =>
    intro hall s rej k
    simp only [cssLoadFold, hall i (List.mem_cons_self i rest)]
    intro hmem
    rcases List.mem_cons.mp hmem with heq | htail
    · cases heq
    · exact ih (fun j hj => hall j (List.mem_cons_of_mem i hj)) _ _ k htail

/-- Once the aggregate has rejected, the CSS fold emits no further
error (later failures are ignored by the settled `Promise.all`). -/
lemma cssLoadFold_after_reject {n : ℕ} {outcome : ℕ → Bool} :
    ∀ (order : List ℕ) (s : Finset ℕ) (r k : ℕ),
      LoadEmit.loadError k ∉ cssLoadFold n outcome order s (some r) := by
  intro order
  induction order with
  | nil =>
    intro s r k
    simp [cssLoadFold]
  | cons i rest ih =>
    intro s r k
    simp only [cssLoadFold]
    split
    · intro hmem
      rcases List.mem_cons.mp hmem with heq | htail
      · cases heq
      · exact ih _ r k htail
    · exact ih _ r k

/-- The CSS fold fires `onError` exactly once, for the first item in
completion order whose load fails. -/
lemma cssLoadFold_first_error {n : ℕ} {outcome : ℕ → Bool} :
    ∀ (order : List ℕ) (j : ℕ),
      order.find? (fun k => !outcome k) = some j →
      ∀ (s : Finset ℕ),
        (cssLoadFold n outcome order s none).count (.loadError j) = 1 ∧
        ∀ k, k ≠ j → LoadEmit.loadError k ∉ cssLoadFold n outcome order s none := by
  intro order
  induction order with
  | nil =>
    intro j hfind _
    simp at hfind
  | cons i rest ih =>
    intro j hfind s
    by_cases hi : outcome i = true
    · have hfind' : rest.find? (fun k => !outcome k) = some j := by
        rwa [List.find?_cons_of_neg _ (by simp [hi])] at hfind
      have := ih j hfind' (insert i s)
      simp only [cssLoadFold, hi, if_pos]
      constructor
      · rw [List.count_cons]
        simp only [this.1]
        simp
      · intro k hk hmem
        rcases List.mem_cons.mp hmem with heq | htail
        · cases heq
        · exact this.2 k hk htail
    · have hi' : outcome i = false := by
        cases h : outcome i
        · rfl
        · exact absurd h hi
      have hj : j = i := by
        rw [List.find?_cons_of_pos _ (by simp [hi'])] at hfind
        exact (Option.some.inj hfind).symm
      subst hj
      simp only [cssLoadFold, hi']
      rw [if_neg (by simp)]
      constructor
      · rw [List.count_cons]
        rw [List.count_eq_zero.mpr (cssLoadFold_after_reject rest s j j)]
        simp
      · intro k hk hmem
        rcases List.mem_cons.mp hmem with heq | htail
        · exact hk (by cases heq; rfl)
        · exact cssLoadFold_after_reject rest s j k htail

/-- The per-item fold of the WebGL loader emits only progress and error
events. -/
lemma wglLoadFold_mem {n : ℕ} {outcome : ℕ → Bool} :
    ∀ (order : List ℕ) (rej : Option ℕ) (e : LoadEmit),
      e ∈ wglLoadFold n outcome order rej →
      (∃ l t, e = .progress l t) ∨ ∃ k, e = .loadError k := by
  intro order
  induction order with
  | nil =>
    intro rej e he
    simp [wglLoadFold] at he
  | cons i rest ih =>
    intro rej e he
    simp only [wglLoadFold] at he
    split at he
    · rcases List.mem_cons.mp he with heq | htail
      · exact Or.inl ⟨_, _, heq⟩
      · exact ih _ e htail
    · cases rej with
      | none =>
        rcases List.mem_cons.mp he with heq | htail
        · exact Or.inr ⟨i, heq⟩
        · exact ih _ e htail
      | some r => exact ih _ e he

/-- If every completing item succeeds, the WebGL fold emits no error. -/
lemma wglLoadFold_no_error {n : ℕ} {outcome : ℕ → Bool} :
    ∀ (order : List ℕ), (∀ i ∈ order, outcome i = true) →
      ∀ (rej : Option ℕ) (k : ℕ),
        LoadEmit.loadError k ∉ wglLoadFold n outcome order rej := by
  intro order
  induction order with
  | nil =>
    intro _ rej k
    simp [wglLoadFold]
  | cons i rest ih =>
    intro hall rej k
    simp only [wglLoadFold, hall i (List.mem_cons_self i rest)]
    intro hmem
    rcases List.mem_cons.mp hmem with heq | htail
    · cases heq
    · exact ih (fun j hj => hall j (List.mem_cons_of_mem i hj)) _ k htail

/-- Once the aggregate has rejected, the WebGL fold emits no further
error. -/
lemma wglLoadFold_after_reject {n : ℕ} {outcome : ℕ → Bool} :
    ∀ (order : List ℕ) (r k : ℕ),
      LoadEmit.loadError k ∉ wglLoadFold n outcome order (some r) := by
  intro order
  induction order with
  | nil =>
    intro r k
    simp [wglLoadFold]
  | cons i rest ih =>
    intro r k
    simp only [wglLoadFold]
    split
    · intro hmem
      rcases List.mem_cons.mp hmem with heq | htail
      · cases heq
      · exact ih r k htail
    · exact ih r k

/-- The WebGL fold fires `onError` exactly once, for the first item in
completion order whose load fails. -/
lemma wglLoadFold_first_error {n : ℕ} {outcome : ℕ → Bool} :
    ∀ (order : List ℕ) (j : ℕ),
      order.find? (fun k => !outcome k) = some j →
      (wglLoadFold n outcome order none).count (.loadError j) = 1 ∧
      ∀ k, k ≠ j → LoadEmit.loadError k ∉ wglLoadFold n outcome order none := by
  intro order
  induction order with
  | nil =>
    intro j hfind
    simp at hfind
  | cons i rest ih =>
    intro j hfind
    by_cases hi : outcome i = true
    · have hfind' : rest.find? (fun k => !outcome k) = some j := by
        rwa [List.find?_cons_of_neg _ (by simp [hi])] at hfind
      have := ih j hfind'
      simp only [wglLoadFold, hi, if_pos]
      constructor
      · rw [List.count_cons]
        simp only [this.1]
        simp
      · intro k hk hmem
        rcases List.mem_cons.mp hmem with heq | htail
        · cases heq
        · exact this.2 k hk htail
    · have hi' : outcome i = false := by
        cases h : outcome i
        · rfl
        · exact absurd h hi
      have hj : j = i := by
        rw [List.find?_cons_of_pos _ (by simp [hi'])] at hfind
        exact (Option.some.inj hfind).symm
      subst hj
      simp only [wglLoadFold, hi']
      rw [if_neg (by simp)]
      constructor
      · rw [List.count_cons]
        rw [List.count_eq_zero.mpr (wglLoadFold_after_reject rest j j)]
        simp
      · intro k hk hmem
        rcases List.mem_cons.mp hmem with heq | htail
        · exact hk (by cases heq; rfl)
        · exact wglLoadFold_after_reject rest j k htail

/-- C6.  For a complete load run over `n` media items (the completion
order is a permutation of the indices): if every item decodes, both
engines fire `onLoadComplete` and `onReady` and never `onError`; if some
item fails, `Promise.all` rejects with the first failure in completion
order, `onError` fires exactly once (for that failure), and neither
`onLoadComplete` nor `onReady` ever fires — the engine never reaches
`Ready`. -/
theorem loadAggregate (n : ℕ) (outcome : ℕ → Bool) (order : List ℕ)
    (hperm : order.Perm (List.range n)) :
    ((∀ i, i < n → outcome i = true) →
      (LoadEmit.loadComplete ∈ cssLoadRun n outcome order ∧
       LoadEmit.ready ∈ cssLoadRun n outcome order ∧
       ∀ k, LoadEmit.loadError k ∉ cssLoadRun n outcome order) ∧
      (LoadEmit.loadComplete ∈ wglLoadRun n outcome order ∧
       LoadEmit.ready ∈ wglLoadRun n outcome order ∧
       ∀ k, LoadEmit.loadError k ∉ wglLoadRun n outcome order)) ∧
    (∀ j, order.find? (fun k => !outcome k) = some j →
      ((cssLoadRun n outcome order).count (.loadError j) = 1 ∧
       (∀ k, k ≠ j → LoadEmit.loadError k ∉ cssLoadRun n outcome order) ∧
       LoadEmit.ready ∉ cssLoadRun n outcome order ∧
       LoadEmit.loadComplete ∉ cssLoadRun n outcome order) ∧
      ((wglLoadRun n outcome order).count (.loadError j) = 1 ∧
       (∀ k, k ≠ j → LoadEmit.loadError k ∉ wglLoadRun n outcome order) ∧
       LoadEmit.ready ∉ wglLoadRun n outcome order ∧
       LoadEmit.loadComplete ∉ wglLoadRun n outcome order)) := by
  constructor
  · intro hall
    have hall' : ∀ i ∈ order, outcome i = true := by
      intro i hi
      exact hall i (List.mem_range.mp (hperm.mem_iff.mp hi))
    have halltrue : order.all outcome = true := List.all_eq_true.mpr hall'
    constructor
    · simp only [cssLoadRun, halltrue, if_pos]
      refine ⟨?_, ?_, ?_⟩
      · exact List.mem_append_right _ (by simp)
      · exact List.mem_append_right _ (by simp)
      · intro k hmem
        rcases List.mem_append.mp hmem with hf | ht
        · exact cssLoadFold_no_error order hall' _ _ k hf
        · simp at ht
    · simp only [wglLoadRun, halltrue, if_pos]
      refine ⟨?_, ?_, ?_⟩
      · exact List.mem_append_right _ (by simp)
      · exact List.mem_append_right _ (by simp)
      · intro k hmem
        rcases List.mem_append.mp hmem with hf | ht
        · exact wglLoadFold_no_error order hall' _ k hf
        · simp at ht
  · intro j hfind
    have hmemj : j ∈ order := List.mem_of_find?_eq_some hfind
    have hjf : outcome j = false := by
      have hpj := List.find?_some hfind
      cases h : outcome j
      · rfl
      · rw [h] at hpj; exact absurd hpj (by decide)
    have hallfalse : ¬(order.all outcome = true) := by
      intro h
      have := List.all_eq_true.mp h j hmemj
      rw [hjf] at this
      cases this
    constructor
    · simp only [cssLoadRun, if_neg hallfalse]
      have hfe := @cssLoadFold_first_error n outcome order j hfind (∅ : Finset ℕ)
      refine ⟨hfe.1, hfe.2, ?_, ?_⟩
      · intro hmem
        rcases cssLoadFold_mem order ∅ none _ hmem with ⟨l, t, h⟩ | ⟨k, h⟩ <;> cases h
      · intro hmem
        rcases cssLoadFold_mem order ∅ none _ hmem with ⟨l, t, h⟩ | ⟨k, h⟩ <;> cases h
    · simp only [wglLoadRun, if_neg hallfalse]
      have hfe := @wglLoadFold_first_error n outcome order j hfind
      refine ⟨hfe.1, hfe.2, ?_, ?_⟩
      · intro hmem
        rcases wglLoadFold_mem order none _ hmem with ⟨l, t, h⟩ | ⟨k, h⟩ <;> cases h
      · intro hmem
        rcases wglLoadFold_mem order none _ hmem with ⟨l, t, h⟩ | ⟨k, h⟩ <;> cases h

/-- Witness for C6: two items, both succeeding, completing out of list
order — both engines reach `onLoadComplete` and `onReady`. -/
theorem loadAggregate_witness :
    LoadEmit.loadComplete ∈ cssLoadRun 2 (fun _ => true) [1, 0] ∧
    LoadEmit.ready ∈ cssLoadRun 2 (fun _ => true) [1, 0] ∧
    LoadEmit.loadComplete ∈ wglLoadRun 2 (fun _ => true) [1, 0] ∧
    LoadEmit.ready ∈ wglLoadRun 2 (fun _ => true) [1, 0] :=
  have h := (loadAggregate 2 (fun _ => true) [1, 0]
      (by rw [show List.range 2 = [0, 1] from rfl]; exact List.Perm.swap 0 1 [])).1
    (fun _ _ => rfl)
  ⟨h.1.1, h.1.2.1, h.2.1, h.2.2.1⟩

/-- C7 (code bug).  `types.ts` documents `LoadingProgress.loaded` as
"Number of loaded items", and the claim requires it to be non-decreasing
regardless of completion order; but `WebGLEngine.loadTextures` emits
`loaded = index + 1` using the item's LIST index.  On the failing input
of two items whose load callbacks arrive out of order (item 1 first,
then item 0 — a legitimate completion order, a permutation of the
indices), the WebGL engine emits `loaded = 2` followed by `loaded = 1`:
a strictly decreasing step.  The CSS engine (`loadImage` counts
`loadedImages.size`) emits `1, 2` on the same schedule, as the claim
demands, and ends at `loaded = total = 2` when `onLoadComplete` fires. -/
theorem wglProgress_not_monotone :
    ([1, 0] : List ℕ).Perm (List.range 2) ∧
    loadedSeq (wglLoadRun 2 (fun _ => true) [1, 0]) = [2, 1] ∧
    nondecreasing (loadedSeq (wglLoadRun 2 (fun _ => true) [1, 0])) = false ∧
    loadedSeq (cssLoadRun 2 (fun _ => true) [1, 0]) = [1, 2] ∧
    nondecreasing (loadedSeq (cssLoadRun 2 (fun _ => true) [1, 0])) = true := by
  refine ⟨?_, by decide, by decide, by decide, by decide⟩
  rw [show List.range 2 = [0, 1] from rfl]
  exact List.Perm.swap 0 1 []

/-- C9.  The facade's `getLoadingProgress` never reports partial
progress: whatever the state of the underlying engine, it returns
`loaded` equal to `total` (both read from `getCurrentPage().total`) and
`progress` equal to 1, instead of forwarding the engine's actual
loading state. -/
theorem facade_loading_progress (e : EngineState) :
    (facadeGetLoadingProgress e).loaded = (facadeGetLoadingProgress e).total ∧
    (facadeGetLoadingProgress e).progress = 1 ∧
    (facadeGetLoadingProgress e).loaded = (engineGetCurrentPage e).total ∧
    (facadeGetLoadingProgress e).total = (engineGetCurrentPage e).total := by
  exact ⟨rfl, rfl, rfl, rfl⟩

/-- C10.  In the CSS engine, every `PageInfo` — the one returned by
`getCurrentPage` and every one passed to `onPageChange` by a step —
has `total` equal to 2 times the number of spreads (not the number of
media items) and `index` equal to the even number
`2 * currentSpread`; consequently for a media list of length `L ≥ 2`
the reported `total` is `2 * (ceil((L - 2) / 2) + 2)`. -/
theorem cssPageInfo_total_spreads (st : CSSState) :
    ((cssGetCurrentPage st).total = 2 * (st.spreads.length : Int) ∧
     (cssGetCurrentPage st).index = 2 * st.currentSpread) ∧
    (∀ (e : CSSEvent) (p : PageInfo),
      Emit.pageChange p ∈ (cssStep e st).2 →
      p.total = 2 * ((cssStep e st).1.spreads.length : Int) ∧
      p.index = 2 * (cssStep e st).1.currentSpread) ∧
    (∀ images : List String, 2 ≤ images.length →
      (cssGetCurrentPage (cssInit images)).total =
        2 * (((images.length - 2 + 1) / 2 + 2 : ℕ) : Int)) := by
  refine ⟨⟨?_, ?_⟩, ?_, ?_⟩
  · show (st.spreads.length : Int) * 2 = 2 * (st.spreads.length : Int)
    omega
  · show st.currentSpread * 2 = 2 * st.currentSpread
    omega
  · intro e p hp
    cases e with
    | next =>
      simp only [cssStep, cssNextPage, goToNextSpread, performFlipAnimation] at hp
      split at hp
      · simp at hp
      · simp at hp
    | prev =>
      simp only [cssStep, cssPrevPage, goToPrevSpread, performFlipAnimation] at hp
      split at hp
      · simp at hp
      · simp at hp
    | goto i =>
      simp only [cssStep, cssGoToPage] at hp ⊢
      split at hp
      · simp at hp
      · rename_i hguard
        simp only [List.mem_singleton] at hp
        cases hp
        rw [if_neg hguard]
        constructor
        · show (st.spreads.length : Int) * 2 = 2 * (st.spreads.length : Int)
          omega
        · show Int.fdiv i 2 * 2 = 2 * Int.fdiv i 2
          omega
    | timer =>
      simp only [cssStep, cssTimerFire] at hp ⊢
      cases hpd : st.pending with
      | none =>
        rw [hpd] at hp
        simp at hp
      | some d =>
        rw [hpd] at hp
        rcases List.mem_cons.mp hp with hp | hp
        · cases hp
          constructor
          · show (st.spreads.length : Int) * 2 = 2 * (st.spreads.length : Int)
            omega
          · cases d with
            | forward =>
              show (st.currentSpread + 1) * 2 = 2 * (st.currentSpread + 1)
              omega
            | back =>
              show (st.currentSpread - 1) * 2 = 2 * (st.currentSpread - 1)
              omega
        · rcases List.mem_cons.mp hp with hp | hp
          · cases hp
          · cases hp
  · intro images h2
    show ((createSpreads images).length : Int) * 2 = _
    rw [((createSpreads_shape images).2.2 h2).1]
    omega

/-- Witness for C10: a step of the five-item engine (4 spreads) reports
`total = 8`, twice the spread count and not the media count 5. -/
theorem cssPageInfo_total_spreads_witness :
    (cssGetCurrentPage (cssInit ["a", "b", "c", "d", "e"])).total =
      2 * (((5 - 2 + 1) / 2 + 2 : ℕ) : Int) ∧
    (cssGetCurrentPage (cssInit ["a", "b", "c", "d", "e"])).total = 8 :=
  have h := (cssPageInfo_total_spreads (cssInit ["a", "b", "c", "d", "e"])).2.2
    ["a", "b", "c", "d", "e"] (by decide)
  ⟨h, by rw [h]; decide⟩

end Flipbook
